import Mathlib

/-!
Shallow embedding of the callbot audio pipeline.

Source files:
* the AudioWorklet processor (class PCMWorkletProcessor): `downsample`,
  `floatToInt16`, `process` with the RMS gate and hangover counter;
* `frontend/src/App.jsx`: `downsampleBuffer`, the WebSocket `onmessage`
  and `onclose` handlers, and `stop()`.

JavaScript numbers are modelled as exact rationals (ℚ); `Math.round` is
round-half-toward-positive-infinity; `DataView.setInt16` truncates toward
zero and wraps into the signed 16-bit range.  The RMS comparison
`Math.sqrt(meanSq) >= thresh` is embedded without square roots as
`thresh ≤ 0 ∨ thresh^2 ≤ meanSq`, which is equivalent over the reals
(see `isLoud_iff_sqrt` below).
-/

/-- JS `Math.round`: round half toward positive infinity. -/
def jsRound (q : ℚ) : ℤ := ⌊q + 1/2⌋

/-- JS truncation toward zero, as used by `DataView.setInt16` on its
number argument before wrapping. -/
def jsTrunc (q : ℚ) : ℤ := if q < 0 then ⌈q⌉ else ⌊q⌋

/-- Wrap an integer into the signed 16-bit range, as `setInt16` does. -/
def wrap16 (t : ℤ) : ℤ :=
  let m := t % 65536
  if 32768 ≤ m then m - 65536 else m

/-- The 16-bit value stored by `view.setInt16(offset, x, true)`:
truncate toward zero, then wrap into [-32768, 32767]. -/
def toInt16 (q : ℚ) : ℤ := wrap16 (jsTrunc q)

/-- `Math.max(-1, Math.min(1, s))`, the clamp in `floatToInt16`. -/
def clamp01 (s : ℚ) : ℚ := max (-1) (min 1 s)

/-- The integer value encoded for one sample by `floatToInt16`:
`s < 0 ? s * 0x8000 : s * 0x7fff` applied to the clamped sample. -/
def encSample (s : ℚ) : ℤ :=
  let c := clamp01 s
  toInt16 (if c < 0 then c * 32768 else c * 32767)

/-- Little-endian byte pair of a 16-bit value, as laid out in the
`ArrayBuffer` by `setInt16(..., true)`. -/
def bytes2LE (v : ℤ) : List ℕ :=
  let u := (v % 65536).toNat
  [u % 256, u / 256]

/-- Read back a little-endian byte pair as a signed 16-bit integer. -/
def decode2LE : List ℕ → ℤ
  | [lo, hi] =>
    let u := lo + 256 * hi
    if 32768 ≤ u then (u : ℤ) - 65536 else (u : ℤ)
  | _ => 0

/-- Inverse of the asymmetric PCM scaling: negative codes were scaled by
32768, non-negative ones by 32767. -/
def decodeScale (v : ℤ) : ℚ := if v < 0 then (v : ℚ) / 32768 else (v : ℚ) / 32767

/-- `floatToInt16`: encode each sample to two little-endian bytes of the
output `ArrayBuffer`. -/
def floatToInt16 : List ℚ → List ℕ
  | [] => []
  | s :: rest => bytes2LE (encSample s) ++ floatToInt16 rest

/-- Body of the inner `for` loop of `downsample`: the average of the
input samples at indices `i` with `lo ≤ i`, `i < hi` and `i < length`
(`count ? accum / count : 0`). -/
def windowAvg (b : List ℚ) (lo hi : ℕ) : ℚ :=
  let w := (b.drop lo).take (hi - lo)
  if w = [] then 0 else w.sum / (w.length : ℚ)

/-- The `while (offsetResult < result.length)` loop of `downsample` and
`downsampleBuffer` (their loop bodies are textually identical).  The
first argument of the recursion is the number of output slots still to
fill; `j` is `offsetResult` and `ob` is `offsetBuffer`. -/
def dsLoop (b : List ℚ) (r : ℚ) : ℕ → ℕ → ℕ → List ℚ
  | 0, _, _ => []
  | n + 1, j, ob =>
    let nob := (jsRound (((j + 1 : ℕ) : ℚ) * r)).toNat
    windowAvg b ob nob :: dsLoop b r n (j + 1) nob

/-- The worklet's `downsample(buffer, inRate, outRate)`:
`newLength = Math.max(1, Math.round(buffer.length / ratio))`. -/
def downsample (b : List ℚ) (inRate outRate : ℚ) : List ℚ :=
  if inRate = outRate then b
  else
    dsLoop b (inRate / outRate)
      (max 1 (jsRound ((b.length : ℚ) / (inRate / outRate))).toNat) 0 0

/-- App.jsx's `downsampleBuffer(buffer, inSampleRate, outSampleRate)`:
identical loop, but `newLength = Math.round(buffer.length / ratio)`
without the `Math.max(1, ...)`. -/
def downsampleBuffer (b : List ℚ) (inSampleRate outSampleRate : ℚ) : List ℚ :=
  if outSampleRate = inSampleRate then b
  else
    dsLoop b (inSampleRate / outSampleRate)
      (jsRound ((b.length : ℚ) / (inSampleRate / outSampleRate))).toNat 0 0

/-- Mean of the squared samples, `sum / ch0.length`; the code compares
`Math.sqrt` of this against the gate threshold. -/
def rmsSq (b : List ℚ) : ℚ := (b.map (fun v => v * v)).sum / (b.length : ℚ)

/-- The gate test `rms >= gateThresh`, i.e. `sqrt (rmsSq b) ≥ th`,
expressed without square roots: over the reals this is equivalent to
`th ≤ 0 ∨ th^2 ≤ rmsSq b` because `rmsSq b ≥ 0` on genuine sample data. -/
def isLoud (th : ℚ) (b : List ℚ) : Prop := th ≤ 0 ∨ th ^ 2 ≤ rmsSq b

instance (th : ℚ) (b : List ℚ) : Decidable (isLoud th b) :=
  inferInstanceAs (Decidable (_ ∨ _))

/-- Construction-time options of `PCMWorkletProcessor` plus the
AudioWorklet global `sampleRate` (`this.inRate`). -/
structure Cfg where
  inRate : ℚ
  outRate : ℚ
  gateThresh : ℚ
  gateHangTarget : ℕ
deriving DecidableEq

/-- The gate-counter update performed by `process`: reset to the hang
target on a loud block, otherwise decrement while positive. -/
def gateUpdate (cfg : Cfg) (g : ℕ) (b : List ℚ) : ℕ :=
  if isLoud cfg.gateThresh b then cfg.gateHangTarget
  else if 0 < g then g - 1 else g

/-- One invocation of `process` on channel-0 data `b` with gate counter
`g` (`this.gateHang`): returns the new counter and the posted PCM frame,
if any.  An absent or empty input returns early; a quiet block with an
exhausted (post-update) counter is dropped; otherwise the block is
downsampled, encoded, and posted when non-empty. -/
def processBlock (cfg : Cfg) (g : ℕ) (b : List ℚ) : ℕ × Option (List ℕ) :=
  if b.isEmpty then (g, none)
  else
    if ¬ isLoud cfg.gateThresh b ∧ gateUpdate cfg g b = 0 then (gateUpdate cfg g b, none)
    else
      if 0 < (downsample b cfg.inRate cfg.outRate).length then
        (gateUpdate cfg g b, some (floatToInt16 (downsample b cfg.inRate cfg.outRate)))
      else (gateUpdate cfg g b, none)

/-- Run `process` over a sequence of blocks, starting from gate counter
`g`; returns the final counter and the per-block frame outcomes. -/
def runGate (cfg : Cfg) : ℕ → List (List ℚ) → ℕ × List (Option (List ℕ))
  | g, [] => (g, [])
  | g, b :: bs =>
    ((runGate cfg (processBlock cfg g b).1 bs).1,
     (processBlock cfg g b).2 :: (runGate cfg (processBlock cfg g b).1 bs).2)

/-- Inbound WebSocket messages as parsed by App.jsx's `onmessage`:
`{type:"result", final, result:{text, partial}}`, `{type:"final",
result:{text}}`, `{type:"error", message}`, or anything unparseable. -/
inductive ServerMsg where
  | result (isFinal : Bool) (text partField : Option String)
  | finalMsg (text : Option String)
  | errorMsg (message : Option String)
  | malformed
deriving DecidableEq

/-- JS `a || b` on an optional string field with a string default:
`undefined` and the empty string are falsy. -/
def firstTruthy (o : Option String) (d : String) : String :=
  match o with
  | some s => if s = "" then d else s
  | none => d

/-- Transcript-related React state: `partial`, `finalText`, `error`. -/
structure TState where
  partText : String
  finalText : String
  lastError : String
deriving DecidableEq

/-- App.jsx `ws.onmessage`: non-final results replace the partial text,
final results (and `type:"final"`) append space-joined to the final
transcript and clear the partial text, errors set the error string, and
malformed payloads are ignored. -/
def wsOnMessage (st : TState) (m : ServerMsg) : TState :=
  match m with
  | ServerMsg.result true t p =>
    let text := firstTruthy t (firstTruthy p "")
    { st with
      finalText := (if st.finalText ≠ "" then st.finalText ++ " " else "") ++ text,
      partText := "" }
  | ServerMsg.result false _ p => { st with partText := firstTruthy p "" }
  | ServerMsg.finalMsg t =>
    let text := firstTruthy t ""
    { st with
      finalText := (if st.finalText ≠ "" then st.finalText ++ " " else "") ++ text,
      partText := "" }
  | ServerMsg.errorMsg msg =>
    { st with lastError := firstTruthy msg "Server error while decoding audio" }
  | ServerMsg.malformed => st

/-- Connection-lifecycle state mutated by the `onclose` handler:
the `recording` flag, whether the keepalive interval is live, and the
current error string (empty = unset). -/
structure CState where
  recording : Bool
  pingActive : Bool
  lastError : String
deriving DecidableEq

/-- The error text `WebSocket closed (code)` set by `onclose`. -/
def closeMsg (code : ℤ) : String :=
  "WebSocket closed (" ++ toString code ++ ")"

/-- App.jsx `ws.onclose`: clear the keepalive interval, stop recording,
and write the generic closure error guarded by `if (!error)`.  The
`error` the guard reads is the render-scope constant captured when the
handler was created inside `start()` — a stale closure that no later
`setError` updates — so the test is against `captured`, not against the
live `st.lastError` that the write replaces. -/
def wsOnClose (captured : String) (st : CState) (code : ℤ) : CState :=
  { recording := false
    pingActive := false
    lastError := if captured = "" then closeMsg code else st.lastError }

/-- Observable actions performed by `stop()` in App.jsx, in program
order.  The `__filter.disconnect()` line always throws (the saved filter
record has no such method) and is swallowed by its `try`, so it performs
no action. -/
inductive Act where
  | disconnectNode
  | disconnectSource
  | closeCtx
  | sendFinal
  | scheduleClose
  | stopTracks
deriving DecidableEq

/-- The ref cells and flags `stop()` reads and writes: which refs are
non-null, whether the audio context is already closed, whether the
WebSocket ref is set and the socket open, whether the stream ref is set,
and the `recording` flag. -/
structure AppRefs where
  workletSet : Bool
  srcSet : Bool
  ctxSet : Bool
  ctxClosed : Bool
  wsSet : Bool
  wsOpen : Bool
  streamSet : Bool
  recording : Bool
deriving DecidableEq

/-- App.jsx `stop()`: disconnect the worklet and source when present,
close the audio context when present and not already closed, null those
three refs, send the literal `"final"` when the socket ref is set and
open, always schedule the deferred `close()` (the timeout itself checks
the ref later), stop the stream tracks when the stream ref is set, and
clear `recording`.  The WebSocket and stream refs are NOT nulled, and
the socket close only happens when the timeout later fires. -/
def stopSession (s : AppRefs) : AppRefs × List Act :=
  ({ s with workletSet := false, srcSet := false, ctxSet := false, recording := false },
   (if s.workletSet then [Act.disconnectNode] else []) ++
   (if s.srcSet then [Act.disconnectSource] else []) ++
   (if s.ctxSet && !s.ctxClosed then [Act.closeCtx] else []) ++
   (if s.wsSet && s.wsOpen then [Act.sendFinal] else []) ++
   [Act.scheduleClose] ++
   (if s.streamSet then [Act.stopTracks] else []))

theorem dsLoop_length (b : List ℚ) (r : ℚ) (n : ℕ) :
    ∀ (j ob : ℕ), (dsLoop b r n j ob).length = n := by
  induction n with
  | zero => intro j ob; rfl
  | succ n ih => intro j ob; simp [dsLoop, ih]

theorem downsample_length_pos (b : List ℚ) (iR oR : ℚ) (hb : b ≠ []) :
    0 < (downsample b iR oR).length := by
  unfold downsample
  split
  · simpa using List.length_pos.mpr hb
  · rw [dsLoop_length]; omega

theorem processBlock_fst (cfg : Cfg) (g : ℕ) (b : List ℚ) :
    (processBlock cfg g b).1 = if b.isEmpty then g else gateUpdate cfg g b := by
  unfold processBlock
  split
  · simp_all
  · split
    · simp_all
    · split <;> simp_all

theorem gateUpdate_quiet (cfg : Cfg) (g : ℕ) (b : List ℚ)
    (hq : ¬ isLoud cfg.gateThresh b) : gateUpdate cfg g b = g - 1 := by
  unfold gateUpdate
  rw [if_neg hq]
  cases g <;> simp

theorem processBlock_quiet (cfg : Cfg) (g : ℕ) (b : List ℚ)
    (hb : b ≠ []) (hq : ¬ isLoud cfg.gateThresh b) :
    processBlock cfg g b =
      (g - 1, if g - 1 = 0 then none
              else some (floatToInt16 (downsample b cfg.inRate cfg.outRate))) := by
  have hni : b.isEmpty = false := by simpa using hb
  have hgu := gateUpdate_quiet cfg g b hq
  by_cases hg : g - 1 = 0
  · simp [processBlock, hni, hgu, hq, hg]
  · simp [processBlock, hni, hgu, hq, hg, downsample_length_pos b _ _ hb]

theorem processBlock_loud (cfg : Cfg) (g : ℕ) (b : List ℚ)
    (hb : b ≠ []) (hl : isLoud cfg.gateThresh b) :
    processBlock cfg g b =
      (cfg.gateHangTarget, some (floatToInt16 (downsample b cfg.inRate cfg.outRate))) := by
  have hni : b.isEmpty = false := by simpa using hb
  simp [processBlock, gateUpdate, hni, hl, downsample_length_pos b _ _ hb]

theorem gateUpdate_le (cfg : Cfg) (g : ℕ) (b : List ℚ)
    (hg : g ≤ cfg.gateHangTarget) : gateUpdate cfg g b ≤ cfg.gateHangTarget := by
  unfold gateUpdate
  split
  · exact le_rfl
  · split <;> omega

theorem processBlock_fst_le (cfg : Cfg) (g : ℕ) (b : List ℚ)
    (hg : g ≤ cfg.gateHangTarget) : (processBlock cfg g b).1 ≤ cfg.gateHangTarget := by
  rw [processBlock_fst]
  split
  · exact hg
  · exact gateUpdate_le cfg g b hg

theorem runGate_fst_le (cfg : Cfg) :
    ∀ (bs : List (List ℚ)) (g : ℕ), g ≤ cfg.gateHangTarget →
      (runGate cfg g bs).1 ≤ cfg.gateHangTarget := by
  intro bs
  induction bs with
  | nil => intro g hg; simpa [runGate] using hg
  | cons b bs ih =>
    intro g hg
    simpa [runGate] using ih _ (processBlock_fst_le cfg g b hg)

theorem runGate_quiet (cfg : Cfg) :
    ∀ (qs : List (List ℚ)) (g i : ℕ),
      (∀ b ∈ qs, b ≠ [] ∧ ¬ isLoud cfg.gateThresh b) → i < qs.length →
      ((((runGate cfg g qs).2.getD i none).isSome = true) ↔ i + 1 < g) := by
  intro qs
  induction qs with
  | nil => intro g i h hi; simp at hi
  | cons b bs ih =>
    intro g i h hi
    obtain ⟨hb, hq⟩ := h b (List.mem_cons_self b bs)
    have hstep := processBlock_quiet cfg g b hb hq
    cases i with
    | zero =>
      by_cases h0 : g - 1 = 0 <;> simp [runGate, hstep, h0] <;> omega
    | succ i =>
      have hrw : (runGate cfg g (b :: bs)).2.getD (i + 1) none =
          (runGate cfg (g - 1) bs).2.getD i none := by
        simp [runGate, hstep]
      rw [hrw, ih (g - 1) i (fun x hx => h x (List.mem_cons_of_mem b hx))
        (by simpa using hi)]
      omega

/-- C2: for every input buffer of length L and rates with
`inputRate ≠ targetSampleRate`, the resampled output length is exactly
`max(1, round(L / r))` where `r = inputRate / targetSampleRate`. -/
theorem c2_resample_length (b : List ℚ) (iR oR : ℚ) (h : iR ≠ oR) :
    ((downsample b iR oR).length : ℤ) =
      max 1 (jsRound ((b.length : ℚ) / (iR / oR))) := by
  unfold downsample
  rw [if_neg h]
  rw [dsLoop_length]
  omega

theorem c2_witness :
    ((downsample [1, 2, 3] 48000 16000).length : ℤ) =
      max 1 (jsRound ((([1, 2, 3] : List ℚ).length : ℚ) / (48000 / 16000))) :=
  c2_resample_length [1, 2, 3] 48000 16000 (by norm_num)

/-- C8: when `inputRate = targetSampleRate`, `downsample` returns the
buffer unchanged, and a block that passes the gate is encoded directly
from the input samples. -/
theorem c8_resample_identity (cfg : Cfg) (g : ℕ) (b : List ℚ)
    (heq : cfg.inRate = cfg.outRate) (hb : b ≠ [])
    (hpass : isLoud cfg.gateThresh b ∨ gateUpdate cfg g b ≠ 0) :
    downsample b cfg.inRate cfg.outRate = b ∧
    (processBlock cfg g b).2 = some (floatToInt16 b) := by
  have hid : downsample b cfg.inRate cfg.outRate = b := by
    unfold downsample
    rw [if_pos heq]
  refine ⟨hid, ?_⟩
  by_cases hl : isLoud cfg.gateThresh b
  · rw [processBlock_loud cfg g b hb hl, hid]
  · have hg : gateUpdate cfg g b ≠ 0 := hpass.resolve_left hl
    rw [processBlock_quiet cfg g b hb hl]
    rw [gateUpdate_quiet cfg g b hl] at hg
    simp [hg, hid]

theorem c8_witness :
    (processBlock ⟨16000, 16000, 3/200, 8⟩ 0 [1]).2 = some (floatToInt16 [1]) :=
  (c8_resample_identity ⟨16000, 16000, 3/200, 8⟩ 0 [1] rfl (by simp)
    (Or.inl (by with_unfolding_all decide))).2

/-- C10 fails as stated: on the one-sample buffer `[1]` at rates
48000 to 16000 the worklet's `downsample` returns one averaged sample
while App.jsx's `downsampleBuffer` returns the empty buffer
(`round(1/3) = 0` and only the worklet takes `max` with 1). -/
theorem c10_counterexample :
    downsample [1] 48000 16000 ≠ downsampleBuffer [1] 48000 16000 ∧
    (downsample [1] 48000 16000).length = 1 ∧
    (downsampleBuffer [1] 48000 16000).length = 0 := by
  with_unfolding_all decide

/-- C10 amended: the two downsampling implementations agree whenever the
rates are equal or `round(L / ratio) ≥ 1`; they differ only on the
degenerate short-buffer case `round(L / ratio) = 0`, where the worklet
emits one sample and App.jsx emits none. -/
theorem c10_amended (b : List ℚ) (iR oR : ℚ) :
    (iR = oR → downsample b iR oR = downsampleBuffer b iR oR) ∧
    (1 ≤ jsRound ((b.length : ℚ) / (iR / oR)) →
      downsample b iR oR = downsampleBuffer b iR oR) := by
  constructor
  · intro h
    subst h
    unfold downsample downsampleBuffer
    simp
  · intro h
    by_cases he : iR = oR
    · subst he
      unfold downsample downsampleBuffer
      simp
    · unfold downsample downsampleBuffer
      rw [if_neg he, if_neg (fun hh => he hh.symm)]
      have hmax : max 1 (jsRound ((b.length : ℚ) / (iR / oR))).toNat =
          (jsRound ((b.length : ℚ) / (iR / oR))).toNat := by omega
      rw [hmax]

theorem c10_witness :
    downsample [1, 2, 3] 48000 16000 = downsampleBuffer [1, 2, 3] 48000 16000 :=
  (c10_amended [1, 2, 3] 48000 16000).2 (by with_unfolding_all decide)

/-- C9 fails as stated: after a full session teardown state, a second
`stop()` still re-sends the `"final"` control message (the deferred
socket close has not yet fired, so the socket is still open), schedules
another close, and re-stops the stream tracks — additional observable
side effects beyond the first call. -/
theorem c9_counterexample :
    (stopSession (stopSession ⟨true, true, true, false, true, true, true, true⟩).1).2 =
      [Act.sendFinal, Act.scheduleClose, Act.stopTracks] ∧
    (stopSession (stopSession ⟨true, true, true, false, true, true, true, true⟩).1).2 ≠ [] := by
  decide

/-- C9 amended: a second `stop()` leaves the session state exactly as
after the first call and performs no audio-graph teardown, but it
re-sends the `"final"` message while the socket is still open, always
schedules another deferred close, and re-stops the stream tracks. -/
theorem c9_amended (s : AppRefs) :
    (stopSession (stopSession s).1).1 = (stopSession s).1 ∧
    (stopSession (stopSession s).1).2 =
      (if s.wsSet && s.wsOpen then [Act.sendFinal] else []) ++
      [Act.scheduleClose] ++
      (if s.streamSet then [Act.stopTracks] else []) := by
  obtain ⟨w, sr, c, cc, ws, wo, str, re⟩ := s
  simp [stopSession]

/-- C5 (code bug): `onclose` clears the keepalive and stops recording as
claimed, but its guard `if (!error)` tests the stale `error` value
captured when `start()` created the handler (empty for a session whose
start happened with no error showing), not the live error state.  So an
error recorded mid-session — here the `onerror` message — is overwritten
by the generic closure error on an unsolicited close, contrary to the
claim that a previously recorded error is not overwritten. -/
theorem c5_stale_close_overwrites :
    (wsOnClose ""
      ⟨true, true, "WebSocket error. Is the backend running on ws://localhost:5000?"⟩
      1006).recording = false ∧
    (wsOnClose ""
      ⟨true, true, "WebSocket error. Is the backend running on ws://localhost:5000?"⟩
      1006).pingActive = false ∧
    (wsOnClose ""
      ⟨true, true, "WebSocket error. Is the backend running on ws://localhost:5000?"⟩
      1006).lastError = closeMsg 1006 ∧
    closeMsg 1006 ≠ "WebSocket error. Is the backend running on ws://localhost:5000?" := by
  refine ⟨rfl, rfl, rfl, ?_⟩
  decide

/-- C4: a non-final result replaces the partial text and leaves the
final transcript alone; a final result (and a `type:"final"` message)
appends its text space-joined to the final transcript and clears the
partial text; the concrete sequence partial "a", partial "ab",
final "abc" yields partial "" and final "abc", and a subsequent
final "d" yields "abc d". -/
theorem c4_transcript :
    (∀ (st : TState) (t p : Option String),
        (wsOnMessage st (ServerMsg.result false t p)).partText = firstTruthy p "" ∧
        (wsOnMessage st (ServerMsg.result false t p)).finalText = st.finalText) ∧
    (∀ (st : TState) (txt : String), txt ≠ "" →
        (wsOnMessage st (ServerMsg.result true (some txt) none)).finalText =
          (if st.finalText = "" then txt else st.finalText ++ " " ++ txt) ∧
        (wsOnMessage st (ServerMsg.result true (some txt) none)).partText = "") ∧
    (∀ (st : TState) (txt : String), txt ≠ "" →
        (wsOnMessage st (ServerMsg.finalMsg (some txt))).finalText =
          (if st.finalText = "" then txt else st.finalText ++ " " ++ txt) ∧
        (wsOnMessage st (ServerMsg.finalMsg (some txt))).partText = "") ∧
    (List.foldl wsOnMessage ⟨"", "", ""⟩
        [ServerMsg.result false none (some "a"), ServerMsg.result false none (some "ab"),
         ServerMsg.result true (some "abc") none] = ⟨"", "abc", ""⟩) ∧
    (wsOnMessage ⟨"", "abc", ""⟩ (ServerMsg.result true (some "d") none) =
      ⟨"", "abc d", ""⟩) := by
  refine ⟨fun st t p => ⟨rfl, rfl⟩, ?_, ?_, by decide, by decide⟩ <;>
    intro st txt h <;>
    refine ⟨?_, rfl⟩ <;>
    by_cases hf : st.finalText = "" <;>
    simp [wsOnMessage, firstTruthy, h, hf, String.append_assoc]

theorem c4_witness :
    (wsOnMessage ⟨"p", "y", ""⟩ (ServerMsg.result true (some "z") none)).finalText =
      (if ("y" : String) = "" then "z" else "y" ++ " " ++ "z") :=
  (c4_transcript.2.1 ⟨"p", "y", ""⟩ "z" (by decide)).1

/-- C7: starting from 0 the hang counter stays at most the configured
hang target over any block sequence; on each block it stays bounded, is
reset to the target whenever the (non-empty) block is loud, and is
otherwise unchanged or decremented by exactly one (it cannot go below
zero, being a natural number). -/
theorem c7_gate_invariant (cfg : Cfg) (bs : List (List ℚ)) (g : ℕ) (b : List ℚ)
    (hg : g ≤ cfg.gateHangTarget) :
    (runGate cfg 0 bs).1 ≤ cfg.gateHangTarget ∧
    (processBlock cfg g b).1 ≤ cfg.gateHangTarget ∧
    (b ≠ [] → isLoud cfg.gateThresh b → (processBlock cfg g b).1 = cfg.gateHangTarget) ∧
    ((b = [] ∨ ¬ isLoud cfg.gateThresh b) →
      (processBlock cfg g b).1 = g ∨ (processBlock cfg g b).1 + 1 = g) := by
  refine ⟨runGate_fst_le cfg bs 0 (Nat.zero_le _),
    processBlock_fst_le cfg g b hg, ?_, ?_⟩
  · intro hb hl
    rw [processBlock_fst]
    have hni : b.isEmpty = false := by simpa using hb
    simp [hni, gateUpdate, hl]
  · intro h
    rw [processBlock_fst]
    rcases h with h | h
    · simp [h]
    · split
      · exact Or.inl rfl
      · rw [gateUpdate_quiet cfg g b h]
        omega

theorem c7_witness :
    (runGate ⟨48000, 16000, 3/200, 8⟩ 0 [[1], [0]]).1 ≤
      (⟨48000, 16000, 3/200, 8⟩ : Cfg).gateHangTarget :=
  (c7_gate_invariant ⟨48000, 16000, 3/200, 8⟩ [[1], [0]] 3 [0] (by norm_num)).1

/-- C1 fails as stated: with threshold 0.015 and hang target H = 1, a
loud block `[1]` followed by exactly one quiet block `[0]` should,
per the claim, produce an output frame for that quiet block; the code
decrements the hang counter before the drop test, so the quiet block is
suppressed (no frame). -/
theorem c1_counterexample :
    (runGate ⟨48000, 16000, 3/200, 1⟩ 0 [[1], [0]]).2.getD 1 none = none ∧
    isLoud (3/200) [1] ∧ ¬ isLoud (3/200) [(0 : ℚ)] := by
  with_unfolding_all decide

/-- C1 amended: starting from hangCounter = 0, a non-empty loud block
(RMS at or above the threshold) produces a frame and sets the counter to
H; of the following non-empty quiet blocks, the i-th (0-indexed)
produces an output frame exactly when i + 1 < H — i.e. the first H - 1
quiet blocks pass and the H-th quiet block (and every later one) is
suppressed, because the counter is decremented before the drop test. -/
theorem c1_amended (cfg : Cfg) (lb : List ℚ) (qs : List (List ℚ))
    (hlb : lb ≠ []) (hloud : isLoud cfg.gateThresh lb)
    (hqs : ∀ b ∈ qs, b ≠ [] ∧ ¬ isLoud cfg.gateThresh b)
    (i : ℕ) (hi : i < qs.length) :
    ((runGate cfg 0 (lb :: qs)).2.getD 0 none).isSome = true ∧
    (((runGate cfg 0 (lb :: qs)).2.getD (i + 1) none).isSome = true ↔
      i + 1 < cfg.gateHangTarget) := by
  have hstep := processBlock_loud cfg 0 lb hlb hloud
  constructor
  · simp [runGate, hstep]
  · have hrw : (runGate cfg 0 (lb :: qs)).2.getD (i + 1) none =
        (runGate cfg cfg.gateHangTarget qs).2.getD i none := by
      simp [runGate, hstep]
    rw [hrw]
    exact runGate_quiet cfg qs cfg.gateHangTarget i hqs hi

theorem c1_witness :
    ((runGate ⟨48000, 16000, 3/200, 2⟩ 0 [[1], [0], [0]]).2.getD 1 none).isSome = true ↔
      0 + 1 < (⟨48000, 16000, 3/200, 2⟩ : Cfg).gateHangTarget :=
  (c1_amended ⟨48000, 16000, 3/200, 2⟩ [1] [[0], [0]] (by simp)
    (by with_unfolding_all decide) (by with_unfolding_all decide) 0 (by simp)).2

theorem dsLoop_getD (b : List ℚ) (r : ℚ) :
    ∀ (n j k ob : ℕ), ob = (jsRound ((j : ℚ) * r)).toNat → k < n →
      (dsLoop b r n j ob).getD k 0 =
        windowAvg b ((jsRound (((j + k : ℕ) : ℚ) * r)).toNat)
          ((jsRound (((j + k + 1 : ℕ) : ℚ) * r)).toNat) := by
  intro n
  induction n with
  | zero => intro j k ob hob hk; exact absurd hk (Nat.not_lt_zero k)
  | succ n ih =>
    intro j k ob hob hk
    subst hob
    cases k with
    | zero => simp [dsLoop]
    | succ k =>
      have htail : (dsLoop b r (n + 1) j ((jsRound ((j : ℚ) * r)).toNat)).getD (k + 1) 0 =
          (dsLoop b r n (j + 1) ((jsRound (((j + 1 : ℕ) : ℚ) * r)).toNat)).getD k 0 := by
        simp [dsLoop]
      rw [htail, ih (j + 1) k _ rfl (by omega)]
      have e1 : j + 1 + k = j + (k + 1) := by omega
      rw [e1]

theorem downsample_getD (b : List ℚ) (iR oR : ℚ) (j : ℕ) (h : iR ≠ oR)
    (hj : j < (downsample b iR oR).length) :
    (downsample b iR oR).getD j 0 =
      windowAvg b ((jsRound ((j : ℚ) * (iR / oR))).toNat)
        ((jsRound (((j : ℚ) + 1) * (iR / oR))).toNat) := by
  have h0 : (0 : ℕ) = (jsRound (((0 : ℕ) : ℚ) * (iR / oR))).toNat := by
    have : ((0 : ℕ) : ℚ) * (iR / oR) + 1/2 = 1/2 := by push_cast; ring
    simp only [jsRound, this]
    have hf : ⌊(1/2 : ℚ)⌋ = 0 := by
      rw [Int.floor_eq_zero_iff]
      constructor <;> norm_num
    rw [hf]
    rfl
  unfold downsample at hj ⊢
  rw [if_neg h] at hj ⊢
  rw [dsLoop_length] at hj
  rw [dsLoop_getD b (iR / oR) _ 0 j 0 h0 hj]
  have e1 : (0 + j : ℕ) = j := by omega
  rw [e1]
  have e2 : ((j + 1 : ℕ) : ℚ) = (j : ℚ) + 1 := by push_cast; ring
  rw [e2]

theorem drop_take_three :
    ∀ (n : ℕ) (l : List ℚ), n + 3 ≤ l.length →
      (l.drop n).take 3 = [l.getD n 0, l.getD (n + 1) 0, l.getD (n + 2) 0] := by
  intro n
  induction n with
  | zero =>
    intro l h
    cases l with
    | nil => simp at h
    | cons x t =>
      cases t with
      | nil => simp at h
      | cons y t2 =>
        cases t2 with
        | nil => simp at h
        | cons z t3 => simp
  | succ n ih =>
    intro l h
    cases l with
    | nil => simp at h
    | cons x t =>
      simp only [List.drop_succ_cons, List.getD_cons_succ]
      exact ih t (by simpa using h)

/-- C3: when the rates differ, output sample `j` is the arithmetic mean
of the input samples in the window from `offsetBuffer = round(j * ratio)`
up to `round((j+1) * ratio)` exclusive, truncated at the buffer end
(0 if that window is empty); concretely a 300-sample block at rates
48000 to 16000 downsamples to 100 samples, each the mean of 3
consecutive inputs. -/
theorem c3_box_semantics :
    (∀ (b : List ℚ) (iR oR : ℚ) (j : ℕ), iR ≠ oR → j < (downsample b iR oR).length →
        (downsample b iR oR).getD j 0 =
          (if (b.drop ((jsRound ((j : ℚ) * (iR / oR))).toNat)).take
              ((jsRound (((j : ℚ) + 1) * (iR / oR))).toNat -
                (jsRound ((j : ℚ) * (iR / oR))).toNat) = [] then 0
           else ((b.drop ((jsRound ((j : ℚ) * (iR / oR))).toNat)).take
              ((jsRound (((j : ℚ) + 1) * (iR / oR))).toNat -
                (jsRound ((j : ℚ) * (iR / oR))).toNat)).sum /
             (((b.drop ((jsRound ((j : ℚ) * (iR / oR))).toNat)).take
              ((jsRound (((j : ℚ) + 1) * (iR / oR))).toNat -
                (jsRound ((j : ℚ) * (iR / oR))).toNat)).length : ℚ))) ∧
    (∀ (b : List ℚ), b.length = 300 →
        (downsample b 48000 16000).length = 100 ∧
        ∀ j : ℕ, j < 100 →
          (downsample b 48000 16000).getD j 0 =
            (b.getD (3 * j) 0 + b.getD (3 * j + 1) 0 + b.getD (3 * j + 2) 0) / 3) := by
  constructor
  · intro b iR oR j h hj
    rw [downsample_getD b iR oR j h hj]
    rfl
  · intro b hb
    have hne : (48000 : ℚ) ≠ 16000 := by norm_num
    have hlen : (downsample b 48000 16000).length = 100 := by
      unfold downsample
      rw [if_neg hne, dsLoop_length, hb]
      have h100 : ((300 : ℕ) : ℚ) / (48000 / 16000) = 100 := by norm_num
      rw [h100]
      have hf : jsRound (100 : ℚ) = 100 := by
        rw [jsRound, Int.floor_eq_iff]
        norm_num
      rw [hf]
      rfl
    refine ⟨hlen, ?_⟩
    intro j hj
    have hj2 : j < (downsample b 48000 16000).length := by rw [hlen]; exact hj
    rw [downsample_getD b 48000 16000 j hne hj2]
    have hr3 : (48000 : ℚ) / 16000 = 3 := by norm_num
    rw [hr3]
    have e1 : jsRound ((j : ℚ) * 3) = ((3 * j : ℕ) : ℤ) := by
      rw [jsRound, Int.floor_eq_iff]
      constructor <;> push_cast <;> linarith
    have e2 : jsRound (((j : ℚ) + 1) * 3) = ((3 * j + 3 : ℕ) : ℤ) := by
      rw [jsRound, Int.floor_eq_iff]
      constructor <;> push_cast <;> linarith
    rw [e1, e2, Int.toNat_natCast, Int.toNat_natCast]
    have hsub : 3 * j + 3 - 3 * j = 3 := by omega
    unfold windowAvg
    rw [hsub, drop_take_three (3 * j) b (by omega)]
    simp
    ring

theorem c3_witness :
    (downsample (List.replicate 300 (1 : ℚ)) 48000 16000).length = 100 :=
  (c3_box_semantics.2 (List.replicate 300 1) (by rw [List.length_replicate])).1

theorem clamp01_mem (s : ℚ) : -1 ≤ clamp01 s ∧ clamp01 s ≤ 1 := by
  unfold clamp01
  exact ⟨le_max_left _ _, max_le (by norm_num) (min_le_left _ _)⟩

theorem wrap16_eq_self (t : ℤ) (h1 : -32768 ≤ t) (h2 : t ≤ 32767) :
    wrap16 t = t := by
  simp only [wrap16]
  split <;> omega

theorem bytes_roundtrip (v : ℤ) (h1 : -32768 ≤ v) (h2 : v ≤ 32767) :
    decode2LE (bytes2LE v) = v := by
  simp only [bytes2LE, decode2LE]
  split <;> omega

/-- C6: the encoder clamps to [-1, 1] and scales negatives by 32768 and
non-negatives by 32767 (truncated, with the 16-bit wrap a no-op because
the value is already in range); the little-endian byte pair decodes back
to the same 16-bit value; and decoding by the inverse scaling lands
within one quantization step (1/32767) of the clamped sample. -/
theorem c6_encoding (s : ℚ) :
    (-32768 ≤ encSample s ∧ encSample s ≤ 32767) ∧
    encSample s = jsTrunc (if clamp01 s < 0 then clamp01 s * 32768 else clamp01 s * 32767) ∧
    decode2LE (bytes2LE (encSample s)) = encSample s ∧
    |decodeScale (encSample s) - clamp01 s| ≤ 1 / 32767 := by
  obtain ⟨hc1, hc2⟩ := clamp01_mem s
  by_cases hneg : clamp01 s < 0
  · have hx2 : clamp01 s * 32768 < 0 := mul_neg_of_neg_of_pos hneg (by norm_num)
    have htr : jsTrunc (clamp01 s * 32768) = ⌈clamp01 s * 32768⌉ := by
      simp [jsTrunc, hx2]
    have hA := Int.le_ceil (clamp01 s * 32768)
    have hB := Int.ceil_lt_add_one (clamp01 s * 32768)
    have ht1 : (-32768 : ℤ) ≤ ⌈clamp01 s * 32768⌉ := by
      have hq : (-32768 : ℚ) ≤ (⌈clamp01 s * 32768⌉ : ℚ) := le_trans (by linarith) hA
      exact_mod_cast hq
    have ht0 : ⌈clamp01 s * 32768⌉ ≤ 0 := Int.ceil_le.mpr (by push_cast; exact hx2.le)
    have henc : encSample s = ⌈clamp01 s * 32768⌉ := by
      simp only [encSample, toInt16, if_pos hneg, htr]
      exact wrap16_eq_self _ ht1 (by omega)
    refine ⟨⟨by rw [henc]; exact ht1, by rw [henc]; omega⟩, ?_, ?_, ?_⟩
    · rw [henc, if_pos hneg, htr]
    · rw [henc]
      exact bytes_roundtrip _ ht1 (by omega)
    · rw [henc]
      rcases lt_or_eq_of_le ht0 with hv | hv
      · have e : decodeScale ⌈clamp01 s * 32768⌉ = (⌈clamp01 s * 32768⌉ : ℚ) / 32768 := by
          simp [decodeScale, hv]
        rw [e, abs_le]
        constructor <;> linarith
      · rw [hv] at hB ⊢
        push_cast at hB
        have e : decodeScale 0 = 0 := by simp [decodeScale]
        rw [e, abs_le]
        constructor <;> linarith
  · push_neg at hneg
    have hx1 : 0 ≤ clamp01 s * 32767 := mul_nonneg hneg (by norm_num)
    have hx2 : clamp01 s * 32767 ≤ 32767 := by linarith
    have htr : jsTrunc (clamp01 s * 32767) = ⌊clamp01 s * 32767⌋ := by
      simp [jsTrunc, not_lt.mpr hx1]
    have hA := Int.floor_le (clamp01 s * 32767)
    have hB := Int.sub_one_lt_floor (clamp01 s * 32767)
    have ht0 : 0 ≤ ⌊clamp01 s * 32767⌋ := Int.floor_nonneg.mpr hx1
    have ht2 : ⌊clamp01 s * 32767⌋ ≤ 32767 := by
      have hq : (⌊clamp01 s * 32767⌋ : ℚ) ≤ 32767 := le_trans hA hx2
      exact_mod_cast hq
    have henc : encSample s = ⌊clamp01 s * 32767⌋ := by
      simp only [encSample, toInt16, if_neg (not_lt.mpr hneg), htr]
      exact wrap16_eq_self _ (by omega) ht2
    refine ⟨⟨by rw [henc]; omega, by rw [henc]; exact ht2⟩, ?_, ?_, ?_⟩
    · rw [henc, if_neg (not_lt.mpr hneg), htr]
    · rw [henc]
      exact bytes_roundtrip _ (by omega) ht2
    · rw [henc]
      have e : decodeScale ⌊clamp01 s * 32767⌋ = (⌊clamp01 s * 32767⌋ : ℚ) / 32767 := by
        simp [decodeScale, not_lt.mpr ht0]
      rw [e, abs_le]
      constructor <;> linarith

/-- Justification of the square-root-free gate embedding: for genuinely
non-negative mean square `m`, the source condition `sqrt m ≥ th` holds
exactly when `th ≤ 0 ∨ th^2 ≤ m`, which is how `isLoud` is stated. -/
theorem isLoud_iff_sqrt (th : ℚ) (b : List ℚ) (hm : 0 ≤ rmsSq b) :
    isLoud th b ↔ (th : ℝ) ≤ Real.sqrt ((rmsSq b : ℚ) : ℝ) := by
  unfold isLoud
  constructor
  · rintro (h | h)
    · exact le_trans (by exact_mod_cast h) (Real.sqrt_nonneg _)
    · rcases le_or_lt th 0 with h0 | h0
      · exact le_trans (by exact_mod_cast h0) (Real.sqrt_nonneg _)
      · have hsq : ((th : ℝ)) ^ 2 ≤ ((rmsSq b : ℚ) : ℝ) := by exact_mod_cast h
        have h0R : (0 : ℝ) ≤ (th : ℝ) := by exact_mod_cast h0.le
        calc (th : ℝ) = Real.sqrt ((th : ℝ) ^ 2) := (Real.sqrt_sq h0R).symm
          _ ≤ Real.sqrt ((rmsSq b : ℚ) : ℝ) := Real.sqrt_le_sqrt hsq
  · intro h
    rcases le_or_lt th 0 with h0 | h0
    · exact Or.inl h0
    · right
      have h0R : (0 : ℝ) ≤ (th : ℝ) := by exact_mod_cast h0.le
      have hsq : ((th : ℝ)) ^ 2 ≤ Real.sqrt ((rmsSq b : ℚ) : ℝ) ^ 2 :=
        pow_le_pow_left₀ h0R h 2
      rw [Real.sq_sqrt (by exact_mod_cast hm)] at hsq
      exact_mod_cast hsq
